import Mathlib

/-!
Shallow embedding of `markdown2html.py`: a line-oriented Markdown-to-HTML
converter.  Lines are modelled as `List Char`, the three scanner flags as
`Bool`s, and the four inline regex substitutions as an explicit scanner with
the exact leftmost, non-greedy semantics of `re.sub` for patterns of the
shape `oo(.*?)cc` with two-character delimiters.  MD5 is implemented in full
(RFC 1321) over `Nat` with explicit `% 2^32` arithmetic so that `hashlib.md5`
digests are reproduced exactly.
-/

/-- Characters stripped by Python `str.strip()` (the `str.isspace` set). -/
def isPySpace (c : Char) : Bool :=
  c.toNat ∈ [9, 10, 11, 12, 13, 28, 29, 30, 31, 32, 0x85, 0xa0, 0x1680,
    0x2000, 0x2001, 0x2002, 0x2003, 0x2004, 0x2005, 0x2006, 0x2007, 0x2008,
    0x2009, 0x200a, 0x2028, 0x2029, 0x202f, 0x205f, 0x3000]

/-- Embedding of Python `str.strip()`: remove leading and trailing whitespace. -/
def pyStrip (l : List Char) : List Char :=
  ((l.dropWhile isPySpace).reverse.dropWhile isPySpace).reverse

/-! ## MD5 (RFC 1321), over `Nat` bytes and 32-bit words -/

/-- UTF-8 encoding of one character (code point to bytes), as in `str.encode()`. -/
def utf8Char (c : Char) : List Nat :=
  let n := c.toNat
  if n < 0x80 then [n]
  else if n < 0x800 then [0xc0 + n / 64, 0x80 + n % 64]
  else if n < 0x10000 then [0xe0 + n / 4096, 0x80 + n / 64 % 64, 0x80 + n % 64]
  else [0xf0 + n / 262144, 0x80 + n / 4096 % 64, 0x80 + n / 64 % 64, 0x80 + n % 64]

/-- UTF-8 encoding of a character list, as in Python `content.encode()`. -/
def utf8Encode (l : List Char) : List Nat :=
  (l.map utf8Char).flatten

/-- The 64 MD5 sine-derived constants `K[i]`. -/
def md5K : List Nat :=
  [0xd76aa478, 0xe8c7b756, 0x242070db, 0xc1bdceee,
   0xf57c0faf, 0x4787c62a, 0xa8304613, 0xfd469501,
   0x698098d8, 0x8b44f7af, 0xffff5bb1, 0x895cd7be,
   0x6b901122, 0xfd987193, 0xa679438e, 0x49b40821,
   0xf61e2562, 0xc040b340, 0x265e5a51, 0xe9b6c7aa,
   0xd62f105d, 0x02441453, 0xd8a1e681, 0xe7d3fbc8,
   0x21e1cde6, 0xc33707d6, 0xf4d50d87, 0x455a14ed,
   0xa9e3e905, 0xfcefa3f8, 0x676f02d9, 0x8d2a4c8a,
   0xfffa3942, 0x8771f681, 0x6d9d6122, 0xfde5380c,
   0xa4beea44, 0x4bdecfa9, 0xf6bb4b60, 0xbebfbc70,
   0x289b7ec6, 0xeaa127fa, 0xd4ef3085, 0x04881d05,
   0xd9d4d039, 0xe6db99e5, 0x1fa27cf8, 0xc4ac5665,
   0xf4292244, 0x432aff97, 0xab9423a7, 0xfc93a039,
   0x655b59c3, 0x8f0ccc92, 0xffeff47d, 0x85845dd1,
   0x6fa87e4f, 0xfe2ce6e0, 0xa3014314, 0x4e0811a1,
   0xf7537e82, 0xbd3af235, 0x2ad7d2bb, 0xeb86d391]

/-- The 64 MD5 per-round left-rotation amounts `s[i]`. -/
def md5S : List Nat :=
  [7, 12, 17, 22, 7, 12, 17, 22, 7, 12, 17, 22, 7, 12, 17, 22,
   5, 9, 14, 20, 5, 9, 14, 20, 5, 9, 14, 20, 5, 9, 14, 20,
   4, 11, 16, 23, 4, 11, 16, 23, 4, 11, 16, 23, 4, 11, 16, 23,
   6, 10, 15, 21, 6, 10, 15, 21, 6, 10, 15, 21, 6, 10, 15, 21]

/-- 32-bit left rotation on a value below `2^32`. -/
def rotl32 (x s : Nat) : Nat :=
  ((x * 2 ^ s) % 2 ^ 32) ||| (x / 2 ^ (32 - s))

/-- The MD5 round mixing function for round `i`. -/
def md5F (i b c d : Nat) : Nat :=
  if i < 16 then (b &&& c) ||| ((b ^^^ 0xffffffff) &&& d)
  else if i < 32 then (d &&& b) ||| ((d ^^^ 0xffffffff) &&& c)
  else if i < 48 then b ^^^ c ^^^ d
  else c ^^^ (b ||| (d ^^^ 0xffffffff))

/-- The MD5 message-word index for round `i`. -/
def md5G (i : Nat) : Nat :=
  if i < 16 then i
  else if i < 32 then (5 * i + 1) % 16
  else if i < 48 then (3 * i + 5) % 16
  else (7 * i) % 16

/-- One MD5 round, updating the `(a, b, c, d)` word state. -/
def md5Round (M : List Nat) (st : Nat × Nat × Nat × Nat) (i : Nat) :
    Nat × Nat × Nat × Nat :=
  let a := st.1
  let b := st.2.1
  let c := st.2.2.1
  let d := st.2.2.2
  let f := (md5F i b c d + a + md5K.getD i 0 + M.getD (md5G i) 0) % 2 ^ 32
  (d, (b + rotl32 f (md5S.getD i 0)) % 2 ^ 32, b, c)

/-- Decode a 64-byte chunk into its 16 little-endian 32-bit words. -/
def md5Words (chunk : List Nat) : List Nat :=
  (List.range 16).map fun i =>
    chunk.getD (4 * i) 0 + 256 * chunk.getD (4 * i + 1) 0 +
      65536 * chunk.getD (4 * i + 2) 0 + 16777216 * chunk.getD (4 * i + 3) 0

/-- Process one 64-byte chunk, updating the MD5 state. -/
def md5Chunk (st : Nat × Nat × Nat × Nat) (chunk : List Nat) :
    Nat × Nat × Nat × Nat :=
  let M := md5Words chunk
  let r := (List.range 64).foldl (md5Round M) st
  ((st.1 + r.1) % 2 ^ 32, (st.2.1 + r.2.1) % 2 ^ 32,
   (st.2.2.1 + r.2.2.1) % 2 ^ 32, (st.2.2.2 + r.2.2.2) % 2 ^ 32)

/-- Split a byte list into 64-byte chunks (`fuel` bounds the recursion and is
always instantiated with the list length, which suffices). -/
def chunksOf64 : Nat → List Nat → List (List Nat)
  | _, [] => []
  | 0, l => [l.take 64]
  | fuel + 1, a :: rest => ((a :: rest).take 64) :: chunksOf64 fuel ((a :: rest).drop 64)

/-- MD5 padding: `0x80`, zeros to 56 mod 64, then the 64-bit little-endian bit length. -/
def md5Pad (m : List Nat) : List Nat :=
  let z := (119 - m.length % 64) % 64
  m ++ [0x80] ++ List.replicate z 0 ++
    (List.range 8).map (fun i => m.length * 8 % 2 ^ 64 / 2 ^ (8 * i) % 256)

/-- Little-endian byte decomposition of a 32-bit word. -/
def wordLE (x : Nat) : List Nat :=
  [x % 256, x / 256 % 256, x / 65536 % 256, x / 16777216 % 256]

/-- The 16-byte MD5 digest of a byte string. -/
def md5Bytes (m : List Nat) : List Nat :=
  let padded := md5Pad m
  let r := (chunksOf64 padded.length padded).foldl md5Chunk
    (0x67452301, 0xefcdab89, 0x98badcfe, 0x10325476)
  wordLE r.1 ++ wordLE r.2.1 ++ wordLE r.2.2.1 ++ wordLE r.2.2.2

/-- The lowercase hexadecimal digit characters. -/
def hexDigits : List Char := "0123456789abcdef".data

/-- Two lowercase hex characters for one byte. -/
def byteHex (b : Nat) : List Char :=
  [hexDigits.getD (b / 16 % 16) '0', hexDigits.getD (b % 16) '0']

/-- Embedding of `md5_hash` from the source: lowercase hexadecimal MD5 digest
of the UTF-8 encoding of the content (`hashlib.md5(content.encode()).hexdigest()`). -/
def md5_hash (content : List Char) : List Char :=
  ((md5Bytes (utf8Encode content)).map byteHex).flatten

/-- Embedding of `remove_c` from the source: `re.sub(r'[cC]', '', content)`. -/
def remove_c (content : List Char) : List Char :=
  content.filter fun c => !(c == 'c' || c == 'C')

/-! ## Inline substitutions: `re.sub` with two-character delimiters

All four patterns in the source have the shape `oo(.*?)cc` with two-character
open and close delimiters.  `re.sub` scans for the leftmost match; at a match
position the lazy group takes the shortest content ending at the first later
occurrence of the close delimiter, `.` does not match a newline, and scanning
resumes after the whole match.  `substFuel` implements exactly that scan;
`fuel` only bounds the recursion and is always called with the list length,
which suffices since every step consumes at least one character. -/

/-- Index of the first occurrence of the two-character close delimiter. -/
def findClose (c1 c2 : Char) : List Char → Option Nat
  | a :: b :: rest =>
    if a = c1 ∧ b = c2 then some 0 else (findClose c1 c2 (b :: rest)).map (· + 1)
  | _ => none

/-- One leftmost-scan substitution pass for the pattern `o1 o2 (.*?) c1 c2`,
replacing each matched content `t` by `f t`. -/
def substFuel (o1 o2 c1 c2 : Char) (f : List Char → List Char) :
    Nat → List Char → List Char
  | _, [] => []
  | _, [a] => [a]
  | 0, l => l
  | fuel + 1, a :: b :: rest =>
    if a = o1 ∧ b = o2 then
      match findClose c1 c2 rest with
      | some j =>
        if '\n' ∈ rest.take j then a :: substFuel o1 o2 c1 c2 f fuel (b :: rest)
        else f (rest.take j) ++ substFuel o1 o2 c1 c2 f fuel (rest.drop (j + 2))
      | none => a :: substFuel o1 o2 c1 c2 f fuel (b :: rest)
    else a :: substFuel o1 o2 c1 c2 f fuel (b :: rest)

/-- `re.sub` for the pattern `o1 o2 (.*?) c1 c2` with replacement `f`. -/
def subst2 (o1 o2 c1 c2 : Char) (f : List Char → List Char) (l : List Char) :
    List Char :=
  substFuel o1 o2 c1 c2 f l.length l

/-- Bold: `re.sub(r'\*\*(.*?)\*\*', r'<b>\1</b>', line)`. -/
def subBold (l : List Char) : List Char :=
  subst2 '*' '*' '*' '*' (fun t => "<b>".data ++ t ++ "</b>".data) l

/-- Emphasis: `re.sub(r'__(.*?)__', r'<em>\1</em>', line)`. -/
def subEm (l : List Char) : List Char :=
  subst2 '_' '_' '_' '_' (fun t => "<em>".data ++ t ++ "</em>".data) l

/-- Hash: `re.sub(r'\[\[(.*?)\]\]', lambda m: md5_hash(m.group(1)), line)`. -/
def subMd5 (l : List Char) : List Char :=
  subst2 '[' '[' ']' ']' md5_hash l

/-- Strip: `re.sub(r'\(\((.*?)\)\)', lambda m: remove_c(m.group(1)), line)`. -/
def subParens (l : List Char) : List Char :=
  subst2 '(' '(' ')' ')' remove_c l

/-- The four inline substitutions, in the order the source applies them. -/
def applyInline (l : List Char) : List Char :=
  subParens (subMd5 (subEm (subBold l)))

/-! ## The line transformer `markdown_to_html_line` -/

/-- The heading scan: `for level in range(6, 0, -1): if line.startswith('#' * level + ' ')`. -/
def headingLevel (line : List Char) : Option Nat :=
  if ['#', '#', '#', '#', '#', '#', ' '].isPrefixOf line then some 6
  else if ['#', '#', '#', '#', '#', ' '].isPrefixOf line then some 5
  else if ['#', '#', '#', '#', ' '].isPrefixOf line then some 4
  else if ['#', '#', '#', ' '].isPrefixOf line then some 3
  else if ['#', '#', ' '].isPrefixOf line then some 2
  else if ['#', ' '].isPrefixOf line then some 1
  else none

/-- The `heading_levels` format strings `<hL>{}</hL>`. -/
def headingFmt (lv : Nat) (text : List Char) : List Char :=
  match lv with
  | 1 => "<h1>".data ++ text ++ "</h1>".data
  | 2 => "<h2>".data ++ text ++ "</h2>".data
  | 3 => "<h3>".data ++ text ++ "</h3>".data
  | 4 => "<h4>".data ++ text ++ "</h4>".data
  | 5 => "<h5>".data ++ text ++ "</h5>".data
  | 6 => "<h6>".data ++ text ++ "</h6>".data
  | _ => text

/-- Embedding of `markdown_to_html_line`: one stripped line and the three
state flags in, the HTML fragment and the updated flags out. -/
def markdown_to_html_line (line : List Char)
    (in_unordered_list in_ordered_list in_paragraph : Bool) :
    List Char × Bool × Bool × Bool :=
  match headingLevel (applyInline line) with
  | some lv =>
    (headingFmt lv (pyStrip ((applyInline line).drop (lv + 1))), false, false, false)
  | none =>
    if ['-', ' '].isPrefixOf (applyInline line) then
      if !in_unordered_list then
        ("<ul>\n<li>".data ++ pyStrip ((applyInline line).drop 2) ++ "</li>".data,
          true, false, false)
      else
        ("<li>".data ++ pyStrip ((applyInline line).drop 2) ++ "</li>".data,
          true, false, false)
    else if ['*', ' '].isPrefixOf (applyInline line) then
      if !in_ordered_list then
        ("<ol>\n<li>".data ++ pyStrip ((applyInline line).drop 2) ++ "</li>".data,
          false, true, false)
      else
        ("<li>".data ++ pyStrip ((applyInline line).drop 2) ++ "</li>".data,
          false, true, false)
    else if applyInline line = [] then
      if in_unordered_list then ("</ul>".data, false, false, false)
      else if in_ordered_list then ("</ol>".data, false, false, false)
      else if in_paragraph then ("</p>".data, false, false, false)
      else ([], false, false, false)
    else if !in_paragraph then
      ("<p>\n    ".data ++ applyInline line, false, false, true)
    else
      ("    <br />\n    ".data ++ applyInline line, false, false, true)

/-! ## The driver (`__main__`) -/

/-- The end-of-document closing tags appended by the driver (three independent
`if` statements on the final flags, in source order). -/
def closingTags (st : Bool × Bool × Bool) : List (List Char) :=
  (if st.1 then ["</ul>".data] else []) ++
    (if st.2.1 then ["</ol>".data] else []) ++
    (if st.2.2 then ["</p>".data] else [])

/-- The flag state after scanning a list of raw lines (each stripped before
being fed to the transformer), threading from the given initial state. -/
def scanState : List (List Char) → Bool × Bool × Bool → Bool × Bool × Bool
  | [], st => st
  | l :: ls, st =>
    scanState ls (markdown_to_html_line (pyStrip l) st.1 st.2.1 st.2.2).2

/-- The collected non-empty fragments of the scan loop, without the final
closing tags. -/
def scanFragsNoClose : List (List Char) → Bool × Bool × Bool → List (List Char)
  | [], _ => []
  | l :: ls, st =>
    let r := markdown_to_html_line (pyStrip l) st.1 st.2.1 st.2.2
    (if r.1 = [] then [] else [r.1]) ++ scanFragsNoClose ls r.2

/-- The full fragment list produced by the driver: the loop's non-empty
fragments followed by the closing tags for the final state. -/
def scanFrags : List (List Char) → Bool × Bool × Bool → List (List Char)
  | [], st => closingTags st
  | l :: ls, st =>
    let r := markdown_to_html_line (pyStrip l) st.1 st.2.1 st.2.2
    (if r.1 = [] then [] else [r.1]) ++ scanFrags ls r.2

/-- The driver's output document: all fragments joined with `"\n"`. -/
def convert (doc : List (List Char)) : List Char :=
  List.intercalate "\n".data (scanFrags doc (false, false, false))

/-- Outcome of one program run: error-stream output, exit status, and the
list of `(path, content)` file writes performed. -/
structure MainResult where
  errOut : List Char
  exitCode : Nat
  written : List (List Char × List Char)
deriving DecidableEq

/-- Embedding of the `__main__` block: argument check, input-file check, then
read, convert and write.  `isfile` models `os.path.isfile` and `readlines`
models reading the input file as a list of raw lines. -/
def main_model (argv : List (List Char)) (isfile : List Char → Bool)
    (readlines : List Char → List (List Char)) : MainResult :=
  match argv with
  | _ :: markdown_file :: html_file :: _ =>
    if !isfile markdown_file then
      ⟨"Missing ".data ++ markdown_file ++ ['\n'], 1, []⟩
    else
      ⟨[], 0, [(html_file, convert (readlines markdown_file))]⟩
  | _ => ⟨"Usage: ./markdown2html.py README.md README.html\n".data, 1, []⟩

/-! ## Lemmas about the substitution scanner -/

/-- The scanner's result does not depend on the fuel, once the fuel covers the
list length. -/
theorem substFuel_congr (o1 o2 c1 c2 : Char) (f : List Char → List Char) :
    ∀ n m (l : List Char), l.length ≤ n → l.length ≤ m →
      substFuel o1 o2 c1 c2 f n l = substFuel o1 o2 c1 c2 f m l := by
  intro n
  induction n with
  | zero =>
    intro m l hn _
    have hl : l = [] := List.eq_nil_of_length_eq_zero (Nat.le_zero.mp hn)
    subst hl
    cases m <;> rfl
  | succ n ih =>
    intro m l hn hm
    match l with
    | [] => cases m <;> rfl
    | [a] => cases m <;> rfl
    | a :: b :: rest =>
      match m with
      | 0 => simp at hm
      | m + 1 =>
        have h1 : (b :: rest).length ≤ n := by simp at hn ⊢; omega
        have h2 : (b :: rest).length ≤ m := by simp at hm ⊢; omega
        simp only [substFuel]
        by_cases hab : a = o1 ∧ b = o2
        · rw [if_pos hab, if_pos hab]
          cases hfc : findClose c1 c2 rest with
          | none =>
            dsimp only
            exact congrArg (a :: ·) (ih m (b :: rest) h1 h2)
          | some j =>
            have h3 : (rest.drop (j + 2)).length ≤ n := by
              simp [List.length_drop] at hn ⊢; omega
            have h4 : (rest.drop (j + 2)).length ≤ m := by
              simp [List.length_drop] at hm ⊢; omega
            dsimp only
            by_cases hnl : '\n' ∈ rest.take j
            · rw [if_pos hnl, if_pos hnl]
              exact congrArg (a :: ·) (ih m (b :: rest) h1 h2)
            · rw [if_neg hnl, if_neg hnl]
              exact congrArg (f (rest.take j) ++ ·) (ih m (rest.drop (j + 2)) h3 h4)
        · rw [if_neg hab, if_neg hab]
          exact congrArg (a :: ·) (ih m (b :: rest) h1 h2)

/-- A string without the first open-delimiter character is left unchanged. -/
theorem substFuel_id (o1 o2 c1 c2 : Char) (f : List Char → List Char) :
    ∀ n (l : List Char), o1 ∉ l → substFuel o1 o2 c1 c2 f n l = l := by
  intro n
  induction n with
  | zero =>
    intro l _
    match l with
    | [] => rfl
    | [a] => rfl
    | a :: b :: rest => rfl
  | succ n ih =>
    intro l h
    match l with
    | [] => rfl
    | [a] => rfl
    | a :: b :: rest =>
      have ha : ¬(a = o1 ∧ b = o2) := by
        rintro ⟨h1, -⟩
        exact h (h1 ▸ List.mem_cons_self a (b :: rest))
      simp only [substFuel, if_neg ha]
      exact congrArg (a :: ·) (ih (b :: rest) (fun hm => h (List.mem_cons_of_mem a hm)))

/-- `re.sub` with the two-character patterns leaves a string without the open
delimiter's first character unchanged. -/
theorem subst2_id (o1 o2 c1 c2 : Char) (f : List Char → List Char)
    (l : List Char) (h : o1 ∉ l) : subst2 o1 o2 c1 c2 f l = l :=
  substFuel_id o1 o2 c1 c2 f l.length l h

/-- The first close delimiter after a clean content block sits right after it. -/
theorem findClose_append (c1 c2 : Char) :
    ∀ (content post : List Char), c1 ∉ content →
      findClose c1 c2 (content ++ c1 :: c2 :: post) = some content.length := by
  intro content
  induction content with
  | nil => intro post _; simp [findClose]
  | cons x cs ih =>
    intro post h
    have hx1 : x ≠ c1 := fun he => h (he ▸ List.mem_cons_self x cs)
    have hcs : c1 ∉ cs := fun hm => h (List.mem_cons_of_mem x hm)
    cases cs with
    | nil => simp [findClose, hx1]
    | cons y ys =>
      have hg : ¬(x = c1 ∧ y = c2) := fun hc => hx1 hc.1
      simp only [List.cons_append, findClose, if_neg hg]
      simp only [List.append_eq]
      rw [← List.cons_append, ih post hcs]
      simp

/-- Scanning past one character that cannot start a match. -/
theorem substFuel_cons_ne (o1 o2 c1 c2 : Char) (f : List Char → List Char)
    (n : Nat) (a : Char) (tail : List Char) (ha : a ≠ o1) (ht : tail ≠ []) :
    substFuel o1 o2 c1 c2 f (n + 1) (a :: tail) =
      a :: substFuel o1 o2 c1 c2 f n tail := by
  match tail with
  | [] => exact absurd rfl ht
  | b :: rest =>
    have hg : ¬(a = o1 ∧ b = o2) := fun hc => ha hc.1
    simp only [substFuel, if_neg hg]

/-- Unfolding the scanner at an open delimiter. -/
theorem substFuel_open (o1 o2 c1 c2 : Char) (f : List Char → List Char)
    (n : Nat) (rest : List Char) :
    substFuel o1 o2 c1 c2 f (n + 1) (o1 :: o2 :: rest) =
      match findClose c1 c2 rest with
      | some j =>
        if '\n' ∈ rest.take j then o1 :: substFuel o1 o2 c1 c2 f n (o2 :: rest)
        else f (rest.take j) ++ substFuel o1 o2 c1 c2 f n (rest.drop (j + 2))
      | none => o1 :: substFuel o1 o2 c1 c2 f n (o2 :: rest) := by
  simp only [substFuel]
  simp only [and_self, if_true, eq_self_iff_true]

/-- The scanner on `pre ++ oo content cc ++ post`, when `pre` cannot open a
match, the content is clean, and the close right after it is the first one:
the span is replaced and scanning resumes on `post`. -/
theorem substFuel_span (o1 o2 c1 c2 : Char) (f : List Char → List Char) :
    ∀ n (pre content post : List Char),
      (pre ++ o1 :: o2 :: (content ++ c1 :: c2 :: post)).length ≤ n →
      o1 ∉ pre → c1 ∉ content → '\n' ∉ content →
      substFuel o1 o2 c1 c2 f n (pre ++ o1 :: o2 :: (content ++ c1 :: c2 :: post)) =
        pre ++ f content ++ substFuel o1 o2 c1 c2 f post.length post := by
  intro n
  induction n with
  | zero => intro pre content post hlen _ _ _; simp at hlen
  | succ n ih =>
    intro pre content post hlen hpre hc hnl
    cases pre with
    | nil =>
      simp only [List.nil_append]
      rw [substFuel_open]
      rw [findClose_append c1 c2 content post hc]
      dsimp only
      rw [List.take_left, if_neg hnl]
      rw [show content ++ c1 :: c2 :: post = (content ++ [c1, c2]) ++ post by simp]
      rw [List.drop_left' (by simp)]
      have hp : post.length ≤ n := by
        simp [List.length_append] at hlen; omega
      rw [substFuel_congr o1 o2 c1 c2 f n post.length post hp (Nat.le_refl _)]
    | cons p ps =>
      have hp1 : p ≠ o1 := fun he => hpre (he ▸ List.mem_cons_self p ps)
      have hps : o1 ∉ ps := fun hm => hpre (List.mem_cons_of_mem p hm)
      have hlen2 : (ps ++ o1 :: o2 :: (content ++ c1 :: c2 :: post)).length ≤ n := by
        simp [List.length_append] at hlen ⊢; omega
      rw [List.cons_append]
      rw [substFuel_cons_ne o1 o2 c1 c2 f n p _ hp1 (by simp)]
      rw [ih ps content post hlen2 hps hc hnl]
      simp

/-- `re.sub` on a single clean span: replace it, keep the surroundings. -/
theorem subst2_span (o1 o2 c1 c2 : Char) (f : List Char → List Char)
    (pre content post : List Char)
    (hpre : o1 ∉ pre) (hc : c1 ∉ content) (hnl : '\n' ∉ content) :
    subst2 o1 o2 c1 c2 f (pre ++ o1 :: o2 :: (content ++ c1 :: c2 :: post)) =
      pre ++ f content ++ subst2 o1 o2 c1 c2 f post :=
  substFuel_span o1 o2 c1 c2 f _ pre content post (Nat.le_refl _) hpre hc hnl

/-! ## Character-set facts about digests and plain lines -/

/-- A defaulted lookup into the hex-digit table stays in the table. -/
theorem getD_hexDigits_mem (i : Nat) : hexDigits.getD i '0' ∈ hexDigits := by
  rw [List.getD_eq_getElem?_getD]
  cases h : hexDigits[i]? with
  | none => simp [hexDigits]
  | some c => simpa using List.getElem?_mem h

/-- Every character of an MD5 hex digest is a lowercase hex digit. -/
theorem md5_hash_subset_hex (content : List Char) :
    ∀ c ∈ md5_hash content, c ∈ hexDigits := by
  intro c hc
  simp only [md5_hash, List.mem_flatten, List.mem_map] at hc
  obtain ⟨piece, ⟨b, -, hb⟩, hcp⟩ := hc
  subst hb
  simp only [byteHex, List.mem_cons, List.not_mem_nil, or_false] at hcp
  rcases hcp with h | h <;> exact h ▸ getD_hexDigits_mem _

/-- Characters outside the hex alphabet do not occur in a digest. -/
theorem not_mem_md5_hash (content : List Char) (x : Char)
    (hx : x ∉ hexDigits) : x ∉ md5_hash content :=
  fun hm => hx (md5_hash_subset_hex content x hm)

/-- Characters that carry no Markdown meaning for this converter. -/
def plainChar (c : Char) : Bool :=
  !(c == '#' || c == '*' || c == '-' || c == '_' || c == '[' || c == '(')

/-- The four inline substitutions leave a line of plain characters unchanged. -/
theorem applyInline_plain (l : List Char) (h : ∀ c ∈ l, plainChar c = true) :
    applyInline l = l := by
  have hstar : '*' ∉ l := by
    intro hm; have := h '*' hm; simp [plainChar] at this
  have hund : '_' ∉ l := by
    intro hm; have := h '_' hm; simp [plainChar] at this
  have hbr : '[' ∉ l := by
    intro hm; have := h '[' hm; simp [plainChar] at this
  have hpar : '(' ∉ l := by
    intro hm; have := h '(' hm; simp [plainChar] at this
  simp only [applyInline, subBold, subEm, subMd5, subParens]
  rw [subst2_id '*' '*' '*' '*' _ l hstar]
  rw [subst2_id '_' '_' '_' '_' _ l hund]
  rw [subst2_id '[' '[' ']' ']' _ l hbr]
  rw [subst2_id '(' '(' ')' ')' _ l hpar]

/-- A line whose first character is not `#` matches no heading marker. -/
theorem headingLevel_none_of_head (c : Char) (t : List Char) (hc : c ≠ '#') :
    headingLevel (c :: t) = none := by
  have h0 : ('#' == c) = false := beq_eq_false_iff_ne.mpr (Ne.symm hc)
  simp [headingLevel, List.isPrefixOf, h0]

/-- A two-character marker whose first character differs from the line head
is not a prefix of the line. -/
theorem isPrefixOf_cons_false (a c : Char) (xs t : List Char) (h : a ≠ c) :
    (a :: xs).isPrefixOf (c :: t) = false := by
  have h0 : (a == c) = false := beq_eq_false_iff_ne.mpr h
  simp [List.isPrefixOf, h0]

/-! ## State-flag lemmas for the transformer and the driver loop -/

/-- At most one of the three block flags is set. -/
def atMostOne (st : Bool × Bool × Bool) : Bool :=
  !(st.1 && st.2.1) && !(st.1 && st.2.2) && !(st.2.1 && st.2.2)

/-- Every return path of the transformer sets at most one flag. -/
theorem md_line_flags (line : List Char) (iu io ip : Bool) :
    atMostOne (markdown_to_html_line line iu io ip).2 = true := by
  unfold markdown_to_html_line
  repeat' split
  all_goals rfl

/-- Threading the scan preserves the at-most-one-flag invariant. -/
theorem scanState_atMostOne :
    ∀ (doc : List (List Char)) (st : Bool × Bool × Bool),
      atMostOne (scanState doc st) = true ∨ doc = [] ∧ scanState doc st = st := by
  intro doc
  induction doc with
  | nil => intro st; exact Or.inr ⟨rfl, rfl⟩
  | cons l ls ih =>
    intro st
    rcases ih (markdown_to_html_line (pyStrip l) st.1 st.2.1 st.2.2).2 with h | ⟨he, hs⟩
    · exact Or.inl h
    · subst he
      exact Or.inl (hs ▸ md_line_flags (pyStrip l) st.1 st.2.1 st.2.2)

/-- The driver's fragment list is the loop's fragments followed by the
closing tags of the final state. -/
theorem scanFrags_eq_noClose :
    ∀ (doc : List (List Char)) (st : Bool × Bool × Bool),
      scanFrags doc st = scanFragsNoClose doc st ++ closingTags (scanState doc st) := by
  intro doc
  induction doc with
  | nil => intro st; rfl
  | cons l ls ih =>
    intro st
    simp only [scanFrags, scanFragsNoClose, scanState]
    rw [ih]
    simp [List.append_assoc]

/-! ## Maximal runs of non-blank lines (the spec's paragraph grouping) -/

/-- Group a list of stripped lines into its maximal runs of non-blank lines
(`fuel` bounds the recursion and is always instantiated with the length). -/
def groupRunsF : Nat → List (List Char) → List (List (List Char))
  | _, [] => []
  | 0, _ => []
  | fuel + 1, l :: ls =>
    if l = [] then groupRunsF fuel ls
    else (l :: ls.takeWhile (fun x => !(x == []))) ::
      groupRunsF fuel (ls.dropWhile (fun x => !(x == [])))

/-- Maximal runs of consecutive non-blank lines, blank lines as separators. -/
def groupRuns (ls : List (List Char)) : List (List (List Char)) :=
  groupRunsF ls.length ls

/-- The fragments the scan emits for one paragraph run: an opening fragment,
a `<br />` fragment per further line, and the closing tag. -/
def fragRun : List (List Char) → List (List Char)
  | [] => ["</p>".data]
  | x :: xs =>
    ("<p>\n    ".data ++ x) ::
      (xs.map (fun y => "    <br />\n    ".data ++ y) ++ ["</p>".data])

/-- One rendered `<p>...</p>` block for a run of non-blank lines. -/
def renderBlock (r : List (List Char)) : List Char :=
  "<p>\n    ".data ++ List.intercalate "\n    <br />\n    ".data r ++ "\n</p>".data

/-- The fragments emitted from inside an open paragraph: `<br />` fragments
while the run continues, then the close, then the remaining blocks. -/
def contFrags (ls : List (List Char)) : List (List Char) :=
  (ls.takeWhile (fun x => !(x == []))).map (fun y => "    <br />\n    ".data ++ y) ++
    ["</p>".data] ++
    ((groupRuns (ls.dropWhile (fun x => !(x == [])))).map fragRun).flatten

/-- Run grouping does not depend on the fuel once it covers the length. -/
theorem groupRunsF_congr :
    ∀ n m (ls : List (List Char)), ls.length ≤ n → ls.length ≤ m →
      groupRunsF n ls = groupRunsF m ls := by
  intro n
  induction n with
  | zero =>
    intro m ls hn _
    have hl : ls = [] := List.eq_nil_of_length_eq_zero (Nat.le_zero.mp hn)
    subst hl
    cases m <;> rfl
  | succ n ih =>
    intro m ls hn hm
    match ls with
    | [] => cases m <;> rfl
    | l :: ls2 =>
      match m with
      | 0 => simp at hm
      | m + 1 =>
        simp only [groupRunsF]
        by_cases hl : l = []
        · rw [if_pos hl, if_pos hl]
          exact ih m ls2 (by simp at hn; omega) (by simp at hm; omega)
        · rw [if_neg hl, if_neg hl]
          have hd : (ls2.dropWhile (fun x => !(x == []))).length ≤ ls2.length :=
            (List.dropWhile_sublist _).length_le
          congr 1
          exact ih m _ (by simp at hn; omega) (by simp at hm; omega)

/-- Grouping ignores a leading blank line. -/
theorem groupRuns_blank (ls : List (List Char)) :
    groupRuns ([] :: ls) = groupRuns ls := by
  show groupRunsF (ls.length + 1) ([] :: ls) = groupRunsF ls.length ls
  simp only [groupRunsF]
  simp

/-- Grouping at a non-blank line starts a maximal run. -/
theorem groupRuns_cons (l : List Char) (ls : List (List Char)) (h : l ≠ []) :
    groupRuns (l :: ls) =
      (l :: ls.takeWhile (fun x => !(x == []))) ::
        groupRuns (ls.dropWhile (fun x => !(x == []))) := by
  show groupRunsF (ls.length + 1) (l :: ls) = _
  simp only [groupRunsF, if_neg h]
  have hd : (ls.dropWhile (fun x => !(x == []))).length ≤ ls.length :=
    (List.dropWhile_sublist _).length_le
  congr 1
  exact groupRunsF_congr ls.length _ _ hd (Nat.le_refl _)

/-- Every run produced by the grouping is non-empty. -/
theorem groupRunsF_ne_nil :
    ∀ n (ls : List (List Char)) r, r ∈ groupRunsF n ls → r ≠ [] := by
  intro n
  induction n with
  | zero =>
    intro ls r hr
    cases ls <;> simp [groupRunsF] at hr
  | succ n ih =>
    intro ls r hr
    match ls with
    | [] => simp [groupRunsF] at hr
    | l :: ls2 =>
      simp only [groupRunsF] at hr
      by_cases hl : l = []
      · rw [if_pos hl] at hr
        exact ih _ _ hr
      · rw [if_neg hl] at hr
        rcases List.mem_cons.mp hr with h | h
        · subst h; simp
        · exact ih _ _ h

/-! ## `intercalate` bookkeeping -/

/-- `intercalate` over a two-or-more element list, one step. -/
theorem intercalate_cons_cons (sep x y : List Char) (zs : List (List Char)) :
    List.intercalate sep (x :: y :: zs) = x ++ sep ++ List.intercalate sep (y :: zs) := by
  simp [List.intercalate, List.intersperse]

/-- `intercalate` over a singleton. -/
theorem intercalate_singleton (sep x : List Char) :
    List.intercalate sep [x] = x := by
  simp [List.intercalate]

/-- `intercalate` over a cons, as a flattened map. -/
theorem intercalate_eq_flatten (sep : List Char) :
    ∀ (xs : List (List Char)) (x : List Char),
      List.intercalate sep (x :: xs) = x ++ (xs.map (fun y => sep ++ y)).flatten := by
  intro xs
  induction xs with
  | nil => intro x; simp [intercalate_singleton]
  | cons y ys ih =>
    intro x
    rw [intercalate_cons_cons, ih y]
    simp [List.append_assoc]

/-- `intercalate` distributes over appending two non-empty fragment lists. -/
theorem intercalate_append_blocks (sep : List Char) :
    ∀ (p q : List (List Char)), p ≠ [] → q ≠ [] →
      List.intercalate sep (p ++ q) =
        List.intercalate sep p ++ sep ++ List.intercalate sep q := by
  intro p
  induction p with
  | nil => intro q h hq; exact absurd rfl h
  | cons x ps ih =>
    intro q hp hq
    cases ps with
    | nil =>
      cases q with
      | nil => exact absurd rfl hq
      | cons y qs =>
        rw [List.cons_append, List.nil_append, intercalate_cons_cons,
          intercalate_singleton]
    | cons x2 ps2 =>
      have h1 : (x :: x2 :: ps2) ++ q = x :: x2 :: (ps2 ++ q) := rfl
      rw [h1, intercalate_cons_cons]
      rw [show x2 :: (ps2 ++ q) = (x2 :: ps2) ++ q from rfl]
      rw [ih q (by simp) hq, intercalate_cons_cons]
      simp [List.append_assoc]

/-- Joining flattened non-empty pieces equals joining the joined pieces. -/
theorem intercalate_flatten_blocks (sep : List Char) :
    ∀ (pieces : List (List (List Char))), (∀ p ∈ pieces, p ≠ []) →
      List.intercalate sep pieces.flatten =
        List.intercalate sep (pieces.map (List.intercalate sep)) := by
  intro pieces
  induction pieces with
  | nil => intro _; rfl
  | cons p ps ih =>
    intro h
    have hp : p ≠ [] := h p (List.mem_cons_self p ps)
    cases ps with
    | nil => simp [intercalate_singleton]
    | cons q qs =>
      have hq : q ≠ [] := h q (List.mem_cons_of_mem p (List.mem_cons_self q qs))
      have hflat : (List.flatten (q :: qs)) ≠ [] := by
        rw [List.flatten_cons]
        intro he
        exact hq (List.append_eq_nil.mp he).1
      rw [List.flatten_cons]
      rw [intercalate_append_blocks sep p _ hp hflat]
      rw [ih (fun r hr => h r (List.mem_cons_of_mem p hr))]
      rw [List.map_cons, List.map_cons, List.map_cons, intercalate_cons_cons]

/-- Joining one opening fragment, `<br />` fragments, and a close with
newlines, flattened. -/
theorem ic_cons_tail :
    ∀ (xs : List (List Char)) (first : List Char),
      List.intercalate "\n".data
          (first :: (xs.map (fun y => "    <br />\n    ".data ++ y) ++ ["</p>".data])) =
        first ++ (xs.map (fun y => "\n    <br />\n    ".data ++ y)).flatten ++
          "\n</p>".data := by
  intro xs
  induction xs with
  | nil =>
    intro first
    simp only [List.map_nil, List.nil_append, List.flatten_nil]
    rw [intercalate_cons_cons, intercalate_singleton]
    simp
  | cons y ys ih =>
    intro first
    rw [List.map_cons, List.cons_append, intercalate_cons_cons, ih]
    simp

/-- Joining the fragments of one non-empty run renders its block. -/
theorem intercalate_fragRun (r : List (List Char)) (h : r ≠ []) :
    List.intercalate "\n".data (fragRun r) = renderBlock r := by
  match r with
  | [] => exact absurd rfl h
  | x :: xs =>
    rw [show fragRun (x :: xs) =
      ("<p>\n    ".data ++ x) ::
        (xs.map (fun y => "    <br />\n    ".data ++ y) ++ ["</p>".data]) from rfl]
    rw [ic_cons_tail]
    simp only [renderBlock]
    rw [intercalate_eq_flatten]
    simp [List.append_assoc]

/-! ## Classifying blank and plain lines -/

/-- The transformer on an empty line: close the open block, in priority order. -/
theorem md_line_blank (iu io ip : Bool) :
    markdown_to_html_line [] iu io ip =
      (if iu then "</ul>".data else if io then "</ol>".data
        else if ip then "</p>".data else [], false, false, false) := by
  cases iu <;> cases io <;> cases ip <;> rfl

/-- The transformer on a non-blank line of plain characters: open a paragraph
or continue the current one; no other branch fires. -/
theorem md_line_plain (s : List Char) (hne : s ≠ [])
    (hpl : ∀ c ∈ s, plainChar c = true) (iu io ip : Bool) :
    markdown_to_html_line s iu io ip =
      (if ip then "    <br />\n    ".data ++ s else "<p>\n    ".data ++ s,
        false, false, true) := by
  obtain ⟨c, t, rfl⟩ : ∃ c t, s = c :: t := by
    cases s with
    | nil => exact absurd rfl hne
    | cons c t => exact ⟨c, t, rfl⟩
  have hid : applyInline (c :: t) = c :: t := applyInline_plain _ hpl
  have hc := hpl c (List.mem_cons_self c t)
  have hch : c ≠ '#' := by intro he; rw [he] at hc; simp [plainChar] at hc
  have hcd : c ≠ '-' := by intro he; rw [he] at hc; simp [plainChar] at hc
  have hcs : c ≠ '*' := by intro he; rw [he] at hc; simp [plainChar] at hc
  simp only [markdown_to_html_line, hid, headingLevel_none_of_head c t hch,
    isPrefixOf_cons_false '-' c [' '] t (Ne.symm hcd),
    isPrefixOf_cons_false '*' c [' '] t (Ne.symm hcs)]
  simp only [Bool.false_eq_true, if_false, reduceCtorEq, ite_false]
  cases ip <;> simp

/-- Stripping preserves plainness. -/
theorem pyStrip_plain (l : List Char) (h : ∀ c ∈ l, plainChar c = true) :
    ∀ c ∈ pyStrip l, plainChar c = true := by
  intro c hc
  simp only [pyStrip] at hc
  rw [List.mem_reverse] at hc
  have hc2 := (List.dropWhile_sublist _).subset hc
  rw [List.mem_reverse] at hc2
  exact h c ((List.dropWhile_sublist _).subset hc2)

/-- A run's fragment list is never empty. -/
theorem fragRun_ne_nil (r : List (List Char)) : fragRun r ≠ [] := by
  cases r <;> simp [fragRun]

/-- The scan of a document of plain lines, from the all-closed and from the
inside-paragraph state: fragments are grouped exactly by maximal runs. -/
theorem scanFrags_plain :
    ∀ (doc : List (List Char)),
      (∀ l ∈ doc, ∀ c ∈ l, plainChar c = true) →
      scanFrags doc (false, false, false) =
          ((groupRuns (doc.map pyStrip)).map fragRun).flatten ∧
        scanFrags doc (false, false, true) = contFrags (doc.map pyStrip) := by
  intro doc
  induction doc with
  | nil =>
    intro _
    exact ⟨rfl, rfl⟩
  | cons l ls ih =>
    intro h
    have hl := h l (List.mem_cons_self l ls)
    have hls : ∀ x ∈ ls, ∀ c ∈ x, plainChar c = true :=
      fun x hx => h x (List.mem_cons_of_mem l hx)
    have hsp : ∀ c ∈ pyStrip l, plainChar c = true := pyStrip_plain l hl
    obtain ⟨ih1, ih2⟩ := ih hls
    by_cases hb : pyStrip l = []
    · constructor
      · simp only [scanFrags, hb, md_line_blank]
        simp only [if_neg (by simp : ¬(false = true)), ite_true, ite_false]
        simp only [List.map_cons, hb, groupRuns_blank]
        simpa using ih1
      · simp only [scanFrags, hb, md_line_blank]
        simp only [List.map_cons, hb, contFrags]
        rw [List.takeWhile_cons_of_neg (by simp), List.dropWhile_cons_of_neg (by simp)]
        simp only [List.map_nil, List.nil_append, groupRuns_blank]
        simpa using ih1
    · have hmd := md_line_plain (pyStrip l) hb hsp
      have hbeq : ((pyStrip l == []) : Bool) = false := beq_eq_false_iff_ne.mpr hb
      constructor
      · simp only [scanFrags]
        rw [hmd false false false]
        simp only [ite_false, Bool.false_eq_true, if_neg (by simp : ¬(false = true))]
        rw [if_neg (by simp : ¬("<p>\n    ".data ++ pyStrip l = []))]
        rw [ih2]
        simp only [List.map_cons]
        rw [groupRuns_cons (pyStrip l) _ hb]
        simp only [List.map_cons, List.flatten_cons]
        rw [show fragRun (pyStrip l :: (ls.map pyStrip).takeWhile (fun x => !(x == []))) =
          ("<p>\n    ".data ++ pyStrip l) ::
            (((ls.map pyStrip).takeWhile (fun x => !(x == []))).map
              (fun y => "    <br />\n    ".data ++ y) ++ ["</p>".data]) from rfl]
        simp [contFrags, List.append_assoc]
      · simp only [scanFrags]
        rw [hmd false false true]
        simp only [ite_true, if_neg (by simp : ¬(false = true))]
        rw [if_neg (by simp : ¬("    <br />\n    ".data ++ pyStrip l = []))]
        rw [ih2]
        simp only [List.map_cons, contFrags]
        rw [List.takeWhile_cons_of_pos (by simp [hbeq]),
          List.dropWhile_cons_of_pos (by simp [hbeq])]
        simp [List.append_assoc]

/-! ## Claim theorems -/

/-- C1: starting from any state (so in particular from the all-false state),
every return path of the line transformer sets at most one of the three flags
`in_unordered_list`, `in_ordered_list`, `in_paragraph`. -/
theorem c1_transformer_at_most_one_flag (line : List Char) (iu io ip : Bool) :
    atMostOne (markdown_to_html_line line iu io ip).2 = true :=
  md_line_flags line iu io ip

/-- C4: on an empty line the transformer emits exactly the closing tag of the
open block, chosen in priority order unordered list, ordered list, paragraph,
and clears all flags; with no open block it emits the empty fragment and the
state stays all-false. -/
theorem c4_blank_line_closes_one_block :
    (∀ io ip : Bool,
      markdown_to_html_line [] true io ip = ("</ul>".data, false, false, false)) ∧
    (∀ ip : Bool,
      markdown_to_html_line [] false true ip = ("</ol>".data, false, false, false)) ∧
    markdown_to_html_line [] false false true = ("</p>".data, false, false, false) ∧
    markdown_to_html_line [] false false false = ([], false, false, false) :=
  ⟨fun _ _ => rfl, fun _ => rfl, rfl, rfl⟩

/-- C5: after scanning any document from the all-false state, the driver's
closing-tag block appends exactly one tag — `</ul>`, `</ol>` or `</p>`,
checked in that priority — when a block is still open, and none otherwise;
the driver's fragment list is the loop fragments followed by these tags. -/
theorem c5_eod_appends_exactly_one_closing_tag (doc : List (List Char)) :
    closingTags (scanState doc (false, false, false)) =
      (if (scanState doc (false, false, false)).1 then ["</ul>".data]
        else if (scanState doc (false, false, false)).2.1 then ["</ol>".data]
        else if (scanState doc (false, false, false)).2.2 then ["</p>".data]
        else []) ∧
    (closingTags (scanState doc (false, false, false))).length ≤ 1 ∧
    scanFrags doc (false, false, false) =
      scanFragsNoClose doc (false, false, false) ++
        closingTags (scanState doc (false, false, false)) := by
  have hinv : atMostOne (scanState doc (false, false, false)) = true := by
    rcases scanState_atMostOne doc (false, false, false) with h | ⟨-, hs⟩
    · exact h
    · rw [hs]; rfl
  refine ⟨?_, ?_, scanFrags_eq_noClose doc _⟩ <;>
    · rcases hst : scanState doc (false, false, false) with ⟨u, o, p⟩
      rw [hst] at hinv
      cases u <;> cases o <;> cases p <;> simp_all [closingTags, atMostOne]

/-- C3: a line whose substituted form starts with `L` `#` characters
(1 ≤ L ≤ 6) followed by a space becomes `<hL>text</hL>` with the trimmed
remainder as text and the all-false state; a line starting with seven `#`
characters and a space is not a heading and falls through to the paragraph
rules. -/
theorem c3_heading_levels :
    (∀ (line : List Char) (iu io ip : Bool) (L : Nat), 1 ≤ L → L ≤ 6 →
      (List.replicate L '#' ++ [' ']).isPrefixOf (applyInline line) = true →
      markdown_to_html_line line iu io ip =
        (headingFmt L (pyStrip ((applyInline line).drop (L + 1))), false, false, false)) ∧
    (∀ (line : List Char) (iu io : Bool),
      (List.replicate 7 '#' ++ [' ']).isPrefixOf (applyInline line) = true →
      markdown_to_html_line line iu io false =
          ("<p>\n    ".data ++ applyInline line, false, false, true) ∧
        markdown_to_html_line line iu io true =
          ("    <br />\n    ".data ++ applyInline line, false, false, true)) := by
  constructor
  · intro line iu io ip L h1 h6 hpre
    rw [List.isPrefixOf_iff_prefix] at hpre
    obtain ⟨t, ht⟩ := hpre
    interval_cases L <;>
      (simp only [markdown_to_html_line]; rw [← ht]
       simp [headingLevel, List.isPrefixOf, List.replicate])
  · intro line iu io hpre
    rw [List.isPrefixOf_iff_prefix] at hpre
    obtain ⟨t, ht⟩ := hpre
    constructor <;>
      (simp only [markdown_to_html_line]; rw [← ht]
       simp [headingLevel, List.isPrefixOf, List.replicate])

/-- C8: with any open block, a heading line returns only the heading fragment
(no closing tag) and clears all flags; with an open list, a plain-text line
returns only the paragraph-opening fragment (no list closing tag) and sets
the paragraph flag. -/
theorem c8_open_block_transitions_do_not_close :
    (∀ (line : List Char) (iu io ip : Bool) (L : Nat),
      (iu || io || ip) = true →
      headingLevel (applyInline line) = some L →
      markdown_to_html_line line iu io ip =
        (headingFmt L (pyStrip ((applyInline line).drop (L + 1))), false, false, false)) ∧
    (∀ (line : List Char) (iu io : Bool),
      (iu || io) = true →
      headingLevel (applyInline line) = none →
      (['-', ' ']).isPrefixOf (applyInline line) = false →
      (['*', ' ']).isPrefixOf (applyInline line) = false →
      applyInline line ≠ [] →
      markdown_to_html_line line iu io false =
        ("<p>\n    ".data ++ applyInline line, false, false, true)) := by
  constructor
  · intro line iu io ip L _ hL
    simp only [markdown_to_html_line, hL]
  · intro line iu io _ hL h1 h2 hne
    simp only [markdown_to_html_line, hL, h1, h2]
    simp [hne]

/-- C10: with an unordered list open, an ordered-item line emits `<ol>` and
the item but no `</ul>`, moving to the ordered-list-only state; symmetrically
with an ordered list open, an unordered-item line emits `<ul>` and the item
but no `</ol>`, moving to the unordered-list-only state. -/
theorem c10_list_kind_switch_opens_without_closing :
    (∀ (line : List Char) (ip : Bool),
      (['*', ' ']).isPrefixOf (applyInline line) = true →
      markdown_to_html_line line true false ip =
        ("<ol>\n<li>".data ++ pyStrip ((applyInline line).drop 2) ++ "</li>".data,
          false, true, false)) ∧
    (∀ (line : List Char) (ip : Bool),
      (['-', ' ']).isPrefixOf (applyInline line) = true →
      markdown_to_html_line line false true ip =
        ("<ul>\n<li>".data ++ pyStrip ((applyInline line).drop 2) ++ "</li>".data,
          true, false, false)) := by
  constructor <;>
    · intro line ip hpre
      rw [List.isPrefixOf_iff_prefix] at hpre
      obtain ⟨t, ht⟩ := hpre
      simp only [markdown_to_html_line]
      rw [← ht]
      simp [headingLevel, List.isPrefixOf]

set_option maxRecDepth 20000 in
/-- Concrete evaluation of the `[[abc]]` example through all four inline
substitutions. -/
theorem c6_concrete_eval :
    applyInline "Hello [[abc]] !".data =
      "Hello 900150983cd24fb0d6963f7d28e17f72 !".data := by
  decide

/-- C6: every non-greedy `[[...]]` span is replaced by the lowercase hex MD5
digest of the enclosed text (UTF-8 encoded), delimiters and text discarded
and surroundings untouched; in particular `[[abc]]` becomes the literal
digest `900150983cd24fb0d6963f7d28e17f72`. -/
theorem c6_hash_span_replaced_by_md5 :
    (∀ (pre content post : List Char),
      '[' ∉ pre → ']' ∉ content → '\n' ∉ content →
      subMd5 (pre ++ '[' :: '[' :: (content ++ ']' :: ']' :: post)) =
        pre ++ md5_hash content ++ subMd5 post) ∧
    applyInline "Hello [[abc]] !".data =
      "Hello 900150983cd24fb0d6963f7d28e17f72 !".data := by
  constructor
  · intro pre content post h1 h2 h3
    exact subst2_span '[' '[' ']' ']' md5_hash pre content post h1 h2 h3
  · exact c6_concrete_eval

set_option maxRecDepth 20000 in
/-- C2 counterexample: on the line `[[**a**]]` the hash digests the
bold-rewritten text, not the text originally enclosed by the delimiters, so
the result is not the digest of `**a**`. -/
theorem c2_counterexample_hash_of_original_text :
    applyInline "[[**a**]]".data ≠ md5_hash "**a**".data := by
  decide

/-- C2 (amended): the four substitutions run in the fixed order bold,
emphasis, hash, strip on the progressively-rewritten line; bold markers
inside a hash or strip span are therefore expanded first, and the hash
digests (the strip filters) the rewritten text `<b>...</b>`, not the
original enclosed text. -/
theorem c2_fixed_order_rewrites_before_hash_and_strip :
    (∀ a : List Char, '*' ∉ a → '_' ∉ a → ']' ∉ a → '\n' ∉ a →
      applyInline ('[' :: '[' :: '*' :: '*' :: (a ++ '*' :: '*' :: ']' :: ']' :: [])) =
        md5_hash ("<b>".data ++ a ++ "</b>".data)) ∧
    (∀ a : List Char, '*' ∉ a → '_' ∉ a → ')' ∉ a → '[' ∉ a → '\n' ∉ a →
      applyInline ('(' :: '(' :: '*' :: '*' :: (a ++ '*' :: '*' :: ')' :: ')' :: [])) =
        remove_c ("<b>".data ++ a ++ "</b>".data)) := by
  constructor
  · intro a h1 h2 h3 h4
    have hbold : subBold ('[' :: '[' :: '*' :: '*' :: (a ++ '*' :: '*' :: ']' :: ']' :: [])) =
        '[' :: '[' :: (("<b>".data ++ a ++ "</b>".data) ++ [']', ']']) := by
      have h0 := subst2_span '*' '*' '*' '*'
        (fun t => "<b>".data ++ t ++ "</b>".data) ['[', '['] a [']', ']']
        (by decide) h1 h4
      rw [show subst2 '*' '*' '*' '*'
        (fun t => "<b>".data ++ t ++ "</b>".data) [']', ']'] = [']', ']'] from
        subst2_id '*' '*' '*' '*' _ [']', ']'] (by decide)] at h0
      simp only [subBold]
      simpa using h0
    have hem : subEm ('[' :: '[' :: (("<b>".data ++ a ++ "</b>".data) ++ [']', ']'])) =
        '[' :: '[' :: (("<b>".data ++ a ++ "</b>".data) ++ [']', ']']) := by
      simp only [subEm]
      apply subst2_id
      intro hm
      simp at hm
      exact h2 hm
    have hmd : subMd5 ('[' :: '[' :: (("<b>".data ++ a ++ "</b>".data) ++ [']', ']'])) =
        md5_hash ("<b>".data ++ a ++ "</b>".data) := by
      have h0 := subst2_span '[' '[' ']' ']' md5_hash []
        ("<b>".data ++ a ++ "</b>".data) []
        (by simp)
        (by intro hm; simp at hm; exact h3 hm)
        (by intro hm; simp at hm; exact h4 hm)
      rw [show subst2 '[' '[' ']' ']' md5_hash ([] : List Char) = [] from rfl] at h0
      simp only [subMd5]
      simpa using h0
    have hpar : subParens (md5_hash ("<b>".data ++ a ++ "</b>".data)) =
        md5_hash ("<b>".data ++ a ++ "</b>".data) := by
      simp only [subParens]
      exact subst2_id '(' '(' ')' ')' remove_c _ (not_mem_md5_hash _ '(' (by decide))
    simp only [applyInline]
    rw [hbold, hem, hmd, hpar]
  · intro a h1 h2 h3 h4 h5
    have hbold : subBold ('(' :: '(' :: '*' :: '*' :: (a ++ '*' :: '*' :: ')' :: ')' :: [])) =
        '(' :: '(' :: (("<b>".data ++ a ++ "</b>".data) ++ [')', ')']) := by
      have h0 := subst2_span '*' '*' '*' '*'
        (fun t => "<b>".data ++ t ++ "</b>".data) ['(', '('] a [')', ')']
        (by decide) h1 h5
      rw [show subst2 '*' '*' '*' '*'
        (fun t => "<b>".data ++ t ++ "</b>".data) [')', ')'] = [')', ')'] from
        subst2_id '*' '*' '*' '*' _ [')', ')'] (by decide)] at h0
      simp only [subBold]
      simpa using h0
    have hem : subEm ('(' :: '(' :: (("<b>".data ++ a ++ "</b>".data) ++ [')', ')'])) =
        '(' :: '(' :: (("<b>".data ++ a ++ "</b>".data) ++ [')', ')']) := by
      simp only [subEm]
      apply subst2_id
      intro hm
      simp at hm
      exact h2 hm
    have hmd : subMd5 ('(' :: '(' :: (("<b>".data ++ a ++ "</b>".data) ++ [')', ')'])) =
        '(' :: '(' :: (("<b>".data ++ a ++ "</b>".data) ++ [')', ')']) := by
      simp only [subMd5]
      apply subst2_id
      intro hm
      simp at hm
      exact h4 hm
    have hpar : subParens ('(' :: '(' :: (("<b>".data ++ a ++ "</b>".data) ++ [')', ')'])) =
        remove_c ("<b>".data ++ a ++ "</b>".data) := by
      have h0 := subst2_span '(' '(' ')' ')' remove_c []
        ("<b>".data ++ a ++ "</b>".data) []
        (by simp)
        (by intro hm; simp at hm; exact h3 hm)
        (by intro hm; simp at hm; exact h5 hm)
      rw [show subst2 '(' '(' ')' ')' remove_c ([] : List Char) = [] from rfl] at h0
      simp only [subParens]
      simpa using h0
    simp only [applyInline]
    rw [hbold, hem, hmd, hpar]

/-- C7: on a document of lines containing no Markdown-special characters, the
pipeline's output is exactly one `<p>...</p>` block per maximal run of
consecutive non-blank lines, blank lines acting as separators: the first line
of a run opens the paragraph, later lines follow `<br />`, and each block is
closed by the following blank line or end-of-document closure. -/
theorem c7_plain_text_pipeline (doc : List (List Char))
    (h : ∀ l ∈ doc, ∀ c ∈ l, plainChar c = true) :
    convert doc =
      List.intercalate "\n".data ((groupRuns (doc.map pyStrip)).map renderBlock) := by
  have h1 := (scanFrags_plain doc h).1
  simp only [convert]
  rw [h1]
  rw [intercalate_flatten_blocks "\n".data ((groupRuns (doc.map pyStrip)).map fragRun)
    (fun p hp => by
      obtain ⟨r, hr, hrp⟩ := List.mem_map.mp hp
      exact hrp ▸ fragRun_ne_nil r)]
  rw [List.map_map]
  congr 1
  apply List.map_congr_left
  intro r hr
  simp only [Function.comp_apply]
  exact intercalate_fragRun r (groupRunsF_ne_nil _ _ r hr)

/-- C9: when the input path is not an existing regular file, the program
writes `Missing <path>` with a newline to the error stream, exits with
status 1, and performs no file read or write (the result does not depend on
the file contents and the write list is empty). -/
theorem c9_missing_input_file (a0 md html : List Char) (rest : List (List Char))
    (isfile : List Char → Bool) (readlines : List Char → List (List Char))
    (h : isfile md = false) :
    main_model (a0 :: md :: html :: rest) isfile readlines =
      ⟨"Missing ".data ++ md ++ ['\n'], 1, []⟩ := by
  simp [main_model, h]

/-! ## Witnesses: the claim theorems applied at concrete inputs -/

/-- C3 witness: `# Title` is a level-1 heading; `####### x` with an open list
falls through to the paragraph branch. -/
theorem c3_heading_levels_witness :
    ((List.replicate 1 '#' ++ [' ']).isPrefixOf (applyInline "# Title".data) = true) ∧
    markdown_to_html_line "# Title".data false false false =
      (headingFmt 1 (pyStrip ((applyInline "# Title".data).drop (1 + 1))),
        false, false, false) ∧
    markdown_to_html_line "####### x".data true false false =
      ("<p>\n    ".data ++ applyInline "####### x".data, false, false, true) :=
  ⟨by decide,
   c3_heading_levels.1 "# Title".data false false false 1 (by decide) (by decide)
     (by decide),
   (c3_heading_levels.2 "####### x".data true false (by decide)).1⟩

/-- C8 witness: a heading line from the open-unordered-list state, and a
plain line from the open-unordered-list state. -/
theorem c8_open_block_transitions_witness :
    (headingLevel (applyInline "# T".data) = some 1) ∧
    markdown_to_html_line "# T".data true false false =
      (headingFmt 1 (pyStrip ((applyInline "# T".data).drop (1 + 1))),
        false, false, false) ∧
    markdown_to_html_line "hi".data true false false =
      ("<p>\n    ".data ++ applyInline "hi".data, false, false, true) :=
  ⟨by decide,
   c8_open_block_transitions_do_not_close.1 "# T".data true false false 1
     (by decide) (by decide),
   c8_open_block_transitions_do_not_close.2 "hi".data true false
     (by decide) (by decide) (by decide) (by decide) (by decide)⟩

/-- C10 witness: `* x` while inside an unordered list, and `- y` while inside
an ordered list. -/
theorem c10_list_kind_switch_witness :
    ((['*', ' ']).isPrefixOf (applyInline "* x".data) = true) ∧
    markdown_to_html_line "* x".data true false false =
      ("<ol>\n<li>".data ++ pyStrip ((applyInline "* x".data).drop 2) ++ "</li>".data,
        false, true, false) ∧
    markdown_to_html_line "- y".data false true false =
      ("<ul>\n<li>".data ++ pyStrip ((applyInline "- y".data).drop 2) ++ "</li>".data,
        true, false, false) :=
  ⟨by decide,
   c10_list_kind_switch_opens_without_closing.1 "* x".data false (by decide),
   c10_list_kind_switch_opens_without_closing.2 "- y".data false (by decide)⟩

/-- C6 witness: a single `[[abc]]` span between `x` and `y`. -/
theorem c6_hash_span_witness :
    ('[' ∉ "x".data) ∧
    subMd5 ("x".data ++ '[' :: '[' :: ("abc".data ++ ']' :: ']' :: "y".data)) =
      "x".data ++ md5_hash "abc".data ++ subMd5 "y".data :=
  ⟨by decide,
   c6_hash_span_replaced_by_md5.1 "x".data "abc".data "y".data
     (by decide) (by decide) (by decide)⟩

/-- C2 witness: the amended ordering theorem at `a`. -/
theorem c2_fixed_order_witness :
    ('*' ∉ "a".data) ∧
    applyInline ('[' :: '[' :: '*' :: '*' :: ("a".data ++ '*' :: '*' :: ']' :: ']' :: [])) =
      md5_hash ("<b>".data ++ "a".data ++ "</b>".data) ∧
    applyInline ('(' :: '(' :: '*' :: '*' :: ("a".data ++ '*' :: '*' :: ')' :: ')' :: [])) =
      remove_c ("<b>".data ++ "a".data ++ "</b>".data) :=
  ⟨by decide,
   c2_fixed_order_rewrites_before_hash_and_strip.1 "a".data
     (by decide) (by decide) (by decide) (by decide),
   c2_fixed_order_rewrites_before_hash_and_strip.2 "a".data
     (by decide) (by decide) (by decide) (by decide) (by decide)⟩

/-- C7 witness: a concrete plain document with two runs. -/
theorem c7_plain_text_pipeline_witness :
    (∀ l ∈ ["hello there".data, "".data, "a b".data, "second line".data],
      ∀ c ∈ l, plainChar c = true) ∧
    convert ["hello there".data, "".data, "a b".data, "second line".data] =
      List.intercalate "\n".data
        ((groupRuns (["hello there".data, "".data, "a b".data,
          "second line".data].map pyStrip)).map renderBlock) :=
  ⟨by decide,
   c7_plain_text_pipeline
     ["hello there".data, "".data, "a b".data, "second line".data] (by decide)⟩

/-- C9 witness: a run whose input path the file-system check rejects. -/
theorem c9_missing_input_file_witness :
    ((fun _ : List Char => false) "in.md".data = false) ∧
    main_model ["prog".data, "in.md".data, "out.html".data]
        (fun _ => false) (fun _ => []) =
      ⟨"Missing ".data ++ "in.md".data ++ ['\n'], 1, []⟩ :=
  ⟨rfl,
   c9_missing_input_file "prog".data "in.md".data "out.html".data []
     (fun _ => false) (fun _ => []) rfl⟩
